import Mathlib

/-!
# LockFreeLatch: a single-producer / single-consumer triple-buffer latch

Shallow embedding of `LockFreeLatch.hpp`.

* The atomic state word `positions` is a natural number holding the value of
  one of the `Positions<R,N>::val` enumerators, `(R << 4) | N`.
* The three payload buffers are fields of the latch record; a `Type *` handle
  returned by `acquireWrite` / `read` is a `Slot` (which buffer it points to),
  and `NULL` is `none`.
* `compare_exchange_weak` may fail spuriously. A whole call of `releaseWrite`
  or `read` takes the list `fails` of its spurious failures: the k-th entry
  says whether the k-th exchange the call attempts fails although the state
  word may equal its expected value; past the end of the list no exchange
  fails spuriously, so `[]` is a call in which every exchange succeeds
  exactly when the state word equals its expected value.
* Whole calls are uninterrupted: every atomic load of one call sees the same
  state word.
* The `for(;;)` loop of `read` is run with fuel: `none` means the loop was
  still running when the fuel ran out.
* Concurrent runs are interleavings of atomic steps (`AtomicStep`): each load
  of `positions` and each `compare_exchange_weak` is one step of the producer
  or of the consumer, with or without spurious failure of the exchanges.
-/

namespace LockFreeLatch

/-! ## Data model -/

/-- Handle to one of the three payload buffers of the latch. -/
inductive Slot where
  | buffer_1
  | buffer_2
  | buffer_3
  deriving DecidableEq, Repr

/-- Index (1, 2 or 3) of the buffer a handle points to. -/
def Slot.index : Slot → Nat
  | .buffer_1 => 1
  | .buffer_2 => 2
  | .buffer_3 => 3

/-- Value of the enumerator `Positions<readableItem, nonWritableItem>::val`. -/
def Positions.val (readableItem nonWritableItem : Nat) : Nat :=
  (readableItem <<< 4) ||| nonWritableItem

/-- Index of a slot: one of 1, 2, 3. -/
def SlotIndex (i : Nat) : Prop := 1 ≤ i ∧ i ≤ 3

instance (i : Nat) : Decidable (SlotIndex i) := by
  unfold SlotIndex; infer_instance

/-- Readable-slot field R of a state word (high half-byte). -/
def stateR (positions : Nat) : Nat := positions / 16

/-- Non-writable (claimed) slot field N of a state word (low half-byte). -/
def stateN (positions : Nat) : Nat := positions % 16

end LockFreeLatch

/-- The data members of the class `LockFreeLatch<Type>`. -/
structure LockFreeLatch (T : Type) where
  positions : Nat
  retryCnt : Int
  buffer_1 : T
  buffer_2 : T
  buffer_3 : T
  deriving DecidableEq, Repr

namespace LockFreeLatch

variable {T : Type}

/-- Constructor `LockFreeLatch(Type const & src)`: the state word starts at
`Positions<1,1>`, the retry counter at 0 and `src` is copied into `buffer_1`.
The two other buffers are not initialised by the constructor; their
arbitrary initial contents are the parameters `junk_2` and `junk_3`. -/
def construct (src junk_2 junk_3 : T) : LockFreeLatch T :=
  { positions := Positions.val 1 1
    retryCnt := 0
    buffer_1 := src
    buffer_2 := junk_2
    buffer_3 := junk_3 }

/-- Payload seen through a handle. -/
def get (l : LockFreeLatch T) : Slot → T
  | .buffer_1 => l.buffer_1
  | .buffer_2 => l.buffer_2
  | .buffer_3 => l.buffer_3

/-- Payload store through a handle. -/
def fill (l : LockFreeLatch T) (s : Slot) (v : T) : LockFreeLatch T :=
  match s with
  | .buffer_1 => { l with buffer_1 := v }
  | .buffer_2 => { l with buffer_2 := v }
  | .buffer_3 => { l with buffer_3 := v }

/-! ## Writer protocol -/

/-- Method `acquireWrite()`: nine tests of the state word in source order,
`NULL` when none matches. -/
def acquireWrite (l : LockFreeLatch T) : Option Slot :=
  if l.positions = Positions.val 1 2 then some Slot.buffer_3
  else if l.positions = Positions.val 1 3 then some Slot.buffer_2
  else if l.positions = Positions.val 2 3 then some Slot.buffer_1
  else if l.positions = Positions.val 2 1 then some Slot.buffer_3
  else if l.positions = Positions.val 3 1 then some Slot.buffer_2
  else if l.positions = Positions.val 3 2 then some Slot.buffer_1
  else if l.positions = Positions.val 1 1 then some Slot.buffer_2
  else if l.positions = Positions.val 2 2 then some Slot.buffer_3
  else if l.positions = Positions.val 3 3 then some Slot.buffer_1
  else none

/-- Atomic `positions.compare_exchange_weak(expected, desired)`: success flag
and the state word afterwards. The exchange fails when the state word differs
from `expected`, and also, whatever the state word, when `spurious` is set (a
weak exchange is allowed to fail spuriously). -/
def compare_exchange_weak (spurious : Bool) (positions expected desired : Nat) : Bool × Nat :=
  if spurious then (false, positions)
  else if positions = expected then (true, desired)
  else (false, positions)

/-- A sequence of `expected = e; if (compare_exchange_weak(expected, d)) return r;`
statements, run in order on a state word: the result `r` and new state word of
the first exchange that succeeds, `none` when control falls past the last.
The k-th entry of `fails` says whether the k-th exchange fails spuriously. -/
def firstCas {ρ : Type} : List Bool → List (Nat × Nat × ρ) → Nat → Option (ρ × Nat)
  | _, [], _ => none
  | fails, (expected, desired, r) :: rest, positions =>
    match compare_exchange_weak (fails.headD false) positions expected desired with
    | (true, positions') => some (r, positions')
    | (false, positions') => firstCas fails.tail rest positions'

/-- The nine (expected, desired) exchanges of `releaseWrite()`, in source
order. -/
def releaseWriteCandidates : List (Nat × Nat × Unit) :=
  [ (Positions.val 1 2, Positions.val 3 2, ()),
    (Positions.val 1 2, Positions.val 2 3, ()),
    (Positions.val 2 1, Positions.val 3 1, ()),
    (Positions.val 2 3, Positions.val 1 3, ()),
    (Positions.val 3 1, Positions.val 2 1, ()),
    (Positions.val 2 2, Positions.val 1 2, ()),
    (Positions.val 1 1, Positions.val 2 1, ()),
    (Positions.val 2 2, Positions.val 3 2, ()),
    (Positions.val 3 3, Positions.val 1 3, ()) ]

/-- State word after `releaseWrite()` when one of its exchanges succeeded,
`none` when all nine failed. -/
def releaseWriteCas (fails : List Bool) (positions : Nat) : Option Nat :=
  (firstCas fails releaseWriteCandidates positions).map Prod.snd

/-- Method `releaseWrite()`: returns at the first successful exchange; when all
nine fail it returns with the latch untouched. -/
def releaseWrite (fails : List Bool) (l : LockFreeLatch T) : LockFreeLatch T :=
  match releaseWriteCas fails l.positions with
  | some positions' => { l with positions := positions' }
  | none => l

/-! ## Reader protocol -/

/-- The twelve exchanges of one pass of the loop of `read()`, in source order,
each with the handle returned on success. -/
def readCandidates : List (Nat × Nat × Slot) :=
  [ (Positions.val 2 1, Positions.val 2 2, Slot.buffer_2),
    (Positions.val 3 1, Positions.val 3 3, Slot.buffer_3),
    (Positions.val 2 1, Positions.val 2 2, Slot.buffer_2),
    (Positions.val 3 1, Positions.val 3 3, Slot.buffer_3),
    (Positions.val 1 2, Positions.val 1 1, Slot.buffer_1),
    (Positions.val 3 2, Positions.val 3 3, Slot.buffer_3),
    (Positions.val 1 2, Positions.val 1 1, Slot.buffer_1),
    (Positions.val 3 2, Positions.val 3 3, Slot.buffer_3),
    (Positions.val 1 3, Positions.val 1 1, Slot.buffer_1),
    (Positions.val 2 3, Positions.val 2 2, Slot.buffer_2),
    (Positions.val 1 3, Positions.val 1 1, Slot.buffer_1),
    (Positions.val 2 3, Positions.val 2 2, Slot.buffer_2) ]

/-- The `for(;;)` loop of `read()`: each pass tries the twelve exchanges and,
when all fail, increments `retryCnt` and starts over. Result: handle, state
word and retry counter at the `return`. Each pass uses the next twelve entries
of `fails`. -/
def readLoop : Nat → List Bool → Nat → Int → Option (Slot × Nat × Int)
  | 0, _, _, _ => none
  | fuel + 1, fails, positions, retryCnt =>
    match firstCas fails readCandidates positions with
    | some (s, positions') => some (s, positions', retryCnt)
    | none => readLoop fuel (fails.drop 12) positions (retryCnt + 1)

/-- Method `read()` (with `USE_RETRY_COUNT` defined): reset of the retry
counter, the three stable-state tests, then the loop. -/
def read (fails : List Bool) (fuel : Nat) (l : LockFreeLatch T) :
    Option (Slot × LockFreeLatch T) :=
  let l0 : LockFreeLatch T := { l with retryCnt := 0 }
  if l0.positions = Positions.val 1 1 then some (Slot.buffer_1, l0)
  else if l0.positions = Positions.val 2 2 then some (Slot.buffer_2, l0)
  else if l0.positions = Positions.val 3 3 then some (Slot.buffer_3, l0)
  else
    match readLoop fuel fails l0.positions l0.retryCnt with
    | some (s, positions', retryCnt') =>
      some (s, { l0 with positions := positions', retryCnt := retryCnt' })
    | none => none

/-- One producer iteration of the test driver: `acquireWrite()`, fill the
buffer behind the returned handle with `v`, `releaseWrite()`. `none` when
`acquireWrite()` returned `NULL` (the driver stops there). -/
def writeCycle (fails : List Bool) (l : LockFreeLatch T) (v : T) : Option (LockFreeLatch T) :=
  match l.acquireWrite with
  | none => none
  | some s => some ((l.fill s v).releaseWrite fails)

/-- One consumer iteration: `read()` and the payload seen through the returned
handle. -/
def readValue (fails : List Bool) (fuel : Nat) (l : LockFreeLatch T) :
    Option (T × LockFreeLatch T) :=
  match l.read fails fuel with
  | none => none
  | some (s, l') => some (l'.get s, l')

/-- Whole calls of a sequential history: a write cycle with its payload, or a
read, each with the spurious failures of its exchanges. -/
inductive Op (T : Type) where
  | write (v : T) (fails : List Bool)
  | read (fails : List Bool)

/-- Run a sequential history of whole calls; the payloads returned by its
reads, in order, and the latch at the end. -/
def run (fuel : Nat) : LockFreeLatch T → List (Op T) → Option (List T × LockFreeLatch T)
  | l, [] => some ([], l)
  | l, Op.write v fails :: ops =>
    match writeCycle fails l v with
    | none => none
    | some l' => run fuel l' ops
  | l, Op.read fails :: ops =>
    match readValue fails fuel l with
    | none => none
    | some (v, l') =>
      match run fuel l' ops with
      | none => none
      | some (vs, l'') => some (v :: vs, l'')

/-- Whole calls of a history whose write payloads come from a counter, each
with the spurious failures of its exchanges. -/
inductive Call where
  | write (fails : List Bool)
  | read (fails : List Bool)
  deriving DecidableEq, Repr

/-- Payloads of the producer loop of the test driver: each write cycle first
increments the counter `loop` and then fills the buffer with it. -/
def counterOps : Int → List Call → List (Op Int)
  | _, [] => []
  | loop, Call.write fails :: cs => Op.write (loop + 1) fails :: counterOps (loop + 1) cs
  | loop, Call.read fails :: cs => Op.read fails :: counterOps loop cs

/-! ## Interleavings of whole calls -/

/-- Legal pair (R,N): both fields are slot indices. -/
def Legal (R N : Nat) : Prop := SlotIndex R ∧ SlotIndex N

instance (R N : Nat) : Decidable (Legal R N) := by
  unfold Legal; infer_instance

/-- A latch together with the handles its two users hold: the handle of the
write in flight (an `acquireWrite()` not yet matched by `releaseWrite()`) and
the handle returned by the most recent `read()`. -/
structure Config (T : Type) where
  latch : LockFreeLatch T
  inFlight : Option Slot
  lastRead : Option Slot

/-- One whole call by the producer or the consumer. With `weak = true` the
exchanges of a call may fail spuriously (any list `fails`), with `weak = false`
none does. -/
inductive Step (weak : Bool) : Config T → Config T → Prop where
  | acquireWrite (c : Config T) (w : Slot) :
      c.inFlight = none → c.latch.acquireWrite = some w →
      Step weak c { c with inFlight := some w }
  | fill (c : Config T) (w : Slot) (v : T) :
      c.inFlight = some w →
      Step weak c { c with latch := c.latch.fill w v }
  | releaseWrite (c : Config T) (w : Slot) (fails : List Bool) :
      (weak = true ∨ fails = []) → c.inFlight = some w →
      Step weak c { c with latch := c.latch.releaseWrite fails, inFlight := none }
  | read (c : Config T) (fails : List Bool) (fuel : Nat) (r : Slot) (l' : LockFreeLatch T) :
      (weak = true ∨ fails = []) → c.latch.read fails fuel = some (r, l') →
      Step weak c { c with latch := l', lastRead := some r }

/-- Configurations reachable from a constructed latch by whole calls. -/
inductive Reachable (weak : Bool) : Config T → Prop where
  | construct (src junk_2 junk_3 : T) :
      Reachable weak
        { latch := construct src junk_2 junk_3, inFlight := none, lastRead := none }
  | step {c c' : Config T} : Reachable weak c → Step weak c c' → Reachable weak c'

/-- State of a latch right after a write cycle published payload `v` while the
reader still claims slot 1. -/
def Published (l : LockFreeLatch T) (v : T) : Prop :=
  (l.positions = Positions.val 2 1 ∧ l.buffer_2 = v) ∨
  (l.positions = Positions.val 3 1 ∧ l.buffer_3 = v)

/-- Invariant of the interleavings of whole calls without spurious failure: the
state word is legal, the
handle of a write in flight differs from both fields, and the handle of the
most recent read is the claimed slot N. -/
def Inv (c : Config T) : Prop :=
  ∃ R N, Legal R N ∧ c.latch.positions = Positions.val R N ∧
    (∀ w, c.inFlight = some w → w.index ≠ R ∧ w.index ≠ N) ∧
    (∀ r, c.lastRead = some r → r.index = N)

/-- Latches reachable from a constructed latch by whole calls in any order and
number: payload stores through any handle, `releaseWrite()` and every `read()`
that returns, whichever of their exchanges fail spuriously (`acquireWrite()`
changes no member of the latch). -/
inductive ReachableLatch : LockFreeLatch T → Prop where
  | construct (src junk_2 junk_3 : T) : ReachableLatch (construct src junk_2 junk_3)
  | fill {l : LockFreeLatch T} (s : Slot) (v : T) :
      ReachableLatch l → ReachableLatch (l.fill s v)
  | releaseWrite {l : LockFreeLatch T} (fails : List Bool) :
      ReachableLatch l → ReachableLatch (l.releaseWrite fails)
  | read {l l' : LockFreeLatch T} (fails : List Bool) (fuel : Nat) (s : Slot) :
      ReachableLatch l → l.read fails fuel = some (s, l') → ReachableLatch l'

/-- Latch after construct(0), one write cycle of payload 1 and one read. -/
def writtenThenRead : LockFreeLatch Int :=
  { positions := Positions.val 2 2
    retryCnt := 0
    buffer_1 := 0
    buffer_2 := 1
    buffer_3 := 0 }

/-- Index of the slot `acquireWrite()` hands out when the state word is
`positions`, `none` for `NULL`. -/
def acquiredIndex (positions : Nat) : Option Nat :=
  (acquireWrite ({ positions := positions, retryCnt := 0, buffer_1 := (), buffer_2 := (),
                   buffer_3 := () } : LockFreeLatch Unit)).map Slot.index

/-- An exchange of `releaseWrite()` that keeps N and whose desired R is the slot
`acquireWrite()` hands out in its expected state. -/
def PublishesAcquired (c : Nat × Nat × Unit) : Prop :=
  stateN c.2.1 = stateN c.1 ∧ acquiredIndex c.1 = some (stateR c.2.1)

instance (c : Nat × Nat × Unit) : Decidable (PublishesAcquired c) := by
  unfold PublishesAcquired; infer_instance

/-- Number of exchanges of `releaseWrite()` whose expected value is `positions`. -/
def expectedCount (positions : Nat) : Nat :=
  releaseWriteCandidates.countP (fun c => decide (c.1 = positions))

/-! ## Shared state graph -/

/-- State change made by a successful exchange of `releaseWrite()`: some
exchange has expected value `a` and desired value `b`. -/
def ReleaseEdge (a b : Nat) : Prop :=
  ∃ c ∈ releaseWriteCandidates, c.1 = a ∧ c.2.1 = b

/-- State change made by a successful exchange of `read()`. -/
def ReadEdge (a b : Nat) : Prop :=
  ∃ c ∈ readCandidates, c.1 = a ∧ c.2.1 = b

/-- Edge of the shared state graph: a state change by either side. -/
def Edge (a b : Nat) : Prop := ReleaseEdge a b ∨ ReadEdge a b

instance (a b : Nat) : Decidable (ReleaseEdge a b) := by
  unfold ReleaseEdge; infer_instance

instance (a b : Nat) : Decidable (ReadEdge a b) := by
  unfold ReadEdge; infer_instance

/-! ## Interleavings of atomic steps -/

/-- The nine tests of `acquireWrite()`, in source order: the value the state
word is compared with and the handle returned on equality. -/
def acquireWriteTests : List (Nat × Slot) :=
  [ (Positions.val 1 2, Slot.buffer_3),
    (Positions.val 1 3, Slot.buffer_2),
    (Positions.val 2 3, Slot.buffer_1),
    (Positions.val 2 1, Slot.buffer_3),
    (Positions.val 3 1, Slot.buffer_2),
    (Positions.val 3 2, Slot.buffer_1),
    (Positions.val 1 1, Slot.buffer_2),
    (Positions.val 2 2, Slot.buffer_3),
    (Positions.val 3 3, Slot.buffer_1) ]

/-- The three stable-state tests at the start of `read()`, in source order. -/
def readFastTests : List (Nat × Slot) :=
  [ (Positions.val 1 1, Slot.buffer_1),
    (Positions.val 2 2, Slot.buffer_2),
    (Positions.val 3 3, Slot.buffer_3) ]

/-- A sequence of `if (positions == e) return r;` statements run in order on one
value of the state word. -/
def firstTest : List (Nat × Slot) → Nat → Option Slot
  | [], _ => none
  | (e, r) :: rest, positions => if positions = e then some r else firstTest rest positions

/-- Where the producer thread stands: outside any call with no write in flight,
inside `acquireWrite()` before the tests in `rest`, between `acquireWrite()`
and `releaseWrite()` with the handle `w` to fill, inside `releaseWrite()`
before the exchanges in `rest`, or stopped after a `NULL` handle. -/
inductive ProducerPc where
  | idle
  | acquiring (rest : List (Nat × Slot))
  | filling (w : Slot)
  | releasing (rest : List (Nat × Nat × Unit))
  | stopped

/-- Where the consumer thread stands: outside any call of `read()`, inside it
before the stable-state tests in `rest`, or inside a pass of its loop before
the exchanges in `rest`. -/
inductive ConsumerPc where
  | outside
  | fast (rest : List (Nat × Slot))
  | looping (rest : List (Nat × Nat × Slot))

/-- The latch and its two threads; `held` is the handle returned by the
consumer's most recent `read()`. -/
structure Threads (T : Type) where
  latch : LockFreeLatch T
  producer : ProducerPc
  consumer : ConsumerPc
  held : Option Slot

/-- One step of one thread. Every atomic load of `positions` and every
`compare_exchange_weak` is a step of its own. An exchange fails when the state
word differs from its expected value; with `weak = true` it may also fail
spuriously, as `compare_exchange_weak` is allowed to, whatever the state word
is (`releaseMiss`, `loopMiss`). -/
inductive AtomicStep (weak : Bool) : Threads T → Threads T → Prop where
  | callAcquireWrite (l : LockFreeLatch T) (c : ConsumerPc) (h : Option Slot) :
      AtomicStep weak ⟨l, .idle, c, h⟩ ⟨l, .acquiring acquireWriteTests, c, h⟩
  | acquireHit (l : LockFreeLatch T) (c : ConsumerPc) (h : Option Slot)
      (e : Nat) (s : Slot) (rest : List (Nat × Slot)) :
      l.positions = e →
      AtomicStep weak ⟨l, .acquiring ((e, s) :: rest), c, h⟩ ⟨l, .filling s, c, h⟩
  | acquireMiss (l : LockFreeLatch T) (c : ConsumerPc) (h : Option Slot)
      (e : Nat) (s : Slot) (rest : List (Nat × Slot)) :
      l.positions ≠ e →
      AtomicStep weak ⟨l, .acquiring ((e, s) :: rest), c, h⟩ ⟨l, .acquiring rest, c, h⟩
  | acquireNull (l : LockFreeLatch T) (c : ConsumerPc) (h : Option Slot) :
      AtomicStep weak ⟨l, .acquiring [], c, h⟩ ⟨l, .stopped, c, h⟩
  | fill (l : LockFreeLatch T) (c : ConsumerPc) (h : Option Slot) (w : Slot) (v : T) :
      AtomicStep weak ⟨l, .filling w, c, h⟩ ⟨l.fill w v, .filling w, c, h⟩
  | callReleaseWrite (l : LockFreeLatch T) (c : ConsumerPc) (h : Option Slot) (w : Slot) :
      AtomicStep weak ⟨l, .filling w, c, h⟩ ⟨l, .releasing releaseWriteCandidates, c, h⟩
  | releaseHit (l : LockFreeLatch T) (c : ConsumerPc) (h : Option Slot)
      (e d : Nat) (u : Unit) (rest : List (Nat × Nat × Unit)) :
      l.positions = e →
      AtomicStep weak ⟨l, .releasing ((e, d, u) :: rest), c, h⟩
        ⟨{ l with positions := d }, .idle, c, h⟩
  | releaseMiss (l : LockFreeLatch T) (c : ConsumerPc) (h : Option Slot)
      (x : Nat × Nat × Unit) (rest : List (Nat × Nat × Unit)) :
      (weak = true ∨ l.positions ≠ x.1) →
      AtomicStep weak ⟨l, .releasing (x :: rest), c, h⟩ ⟨l, .releasing rest, c, h⟩
  | releaseReturn (l : LockFreeLatch T) (c : ConsumerPc) (h : Option Slot) :
      AtomicStep weak ⟨l, .releasing [], c, h⟩ ⟨l, .idle, c, h⟩
  | callRead (l : LockFreeLatch T) (p : ProducerPc) (h : Option Slot) :
      AtomicStep weak ⟨l, p, .outside, h⟩ ⟨{ l with retryCnt := 0 }, p, .fast readFastTests, h⟩
  | fastHit (l : LockFreeLatch T) (p : ProducerPc) (h : Option Slot)
      (e : Nat) (s : Slot) (rest : List (Nat × Slot)) :
      l.positions = e →
      AtomicStep weak ⟨l, p, .fast ((e, s) :: rest), h⟩ ⟨l, p, .outside, some s⟩
  | fastMiss (l : LockFreeLatch T) (p : ProducerPc) (h : Option Slot)
      (e : Nat) (s : Slot) (rest : List (Nat × Slot)) :
      l.positions ≠ e →
      AtomicStep weak ⟨l, p, .fast ((e, s) :: rest), h⟩ ⟨l, p, .fast rest, h⟩
  | enterLoop (l : LockFreeLatch T) (p : ProducerPc) (h : Option Slot) :
      AtomicStep weak ⟨l, p, .fast [], h⟩ ⟨l, p, .looping readCandidates, h⟩
  | loopHit (l : LockFreeLatch T) (p : ProducerPc) (h : Option Slot)
      (e d : Nat) (s : Slot) (rest : List (Nat × Nat × Slot)) :
      l.positions = e →
      AtomicStep weak ⟨l, p, .looping ((e, d, s) :: rest), h⟩
        ⟨{ l with positions := d }, p, .outside, some s⟩
  | loopMiss (l : LockFreeLatch T) (p : ProducerPc) (h : Option Slot)
      (x : Nat × Nat × Slot) (rest : List (Nat × Nat × Slot)) :
      (weak = true ∨ l.positions ≠ x.1) →
      AtomicStep weak ⟨l, p, .looping (x :: rest), h⟩ ⟨l, p, .looping rest, h⟩
  | loopRetry (l : LockFreeLatch T) (p : ProducerPc) (h : Option Slot) :
      AtomicStep weak ⟨l, p, .looping [], h⟩
        ⟨{ l with retryCnt := l.retryCnt + 1 }, p, .looping readCandidates, h⟩

/-- States reachable from a constructed latch by interleaving the steps of one
producer and one consumer. -/
inductive Interleaved (weak : Bool) : Threads T → Prop where
  | construct (src junk_2 junk_3 : T) :
      Interleaved weak ⟨construct src junk_2 junk_3, .idle, .outside, none⟩
  | step {σ σ' : Threads T} : Interleaved weak σ → AtomicStep weak σ σ' → Interleaved weak σ'

/-- What the invariant of the interleavings without spurious failure says of
the producer: the tests or exchanges still ahead are those of the source, a
handle being filled differs from both fields of the state word, and once the
first exchange of `releaseWrite()` has failed the state word is not (1,2). -/
def ProducerOk (positions : Nat) : ProducerPc → Prop
  | .idle => True
  | .acquiring rest => ∀ x ∈ rest, x ∈ acquireWriteTests
  | .filling w => w.index ≠ stateR positions ∧ w.index ≠ stateN positions
  | .releasing rest =>
    (rest = releaseWriteCandidates ∨ positions ≠ Positions.val 1 2) ∧
    ∀ x ∈ rest, x ∈ releaseWriteCandidates
  | .stopped => True

/-- What the invariant of the interleavings says of the consumer: the tests or
exchanges still ahead are those of the source. -/
def ConsumerOk : ConsumerPc → Prop
  | .outside => True
  | .fast rest => ∀ x ∈ rest, x ∈ readFastTests
  | .looping rest => ∀ x ∈ rest, x ∈ readCandidates

/-- Invariant of the interleavings without spurious failure: the handle held by
the consumer is the claimed slot N, and both threads are where the source
allows. -/
def AtomicInv (σ : Threads T) : Prop :=
  (∀ r, σ.held = some r → r.index = stateN σ.latch.positions) ∧
  ProducerOk σ.latch.positions σ.producer ∧ ConsumerOk σ.consumer

/-- State in which the consumer holds `buffer_2` from its most recent read and
the producer has been handed `buffer_2` to fill. -/
def fillingHeldSlot : Threads Int :=
  { latch := { positions := Positions.val 1 3, retryCnt := 0, buffer_1 := 4, buffer_2 := 1,
               buffer_3 := 3 }
    producer := ProducerPc.filling Slot.buffer_2
    consumer := ConsumerPc.outside
    held := some Slot.buffer_2 }

/-- Spurious failures of a `releaseWrite()` in state (1,1): the seventh
exchange, the only one that expects (1,1), fails. -/
def seventhFails : List Bool := [false, false, false, false, false, false, true]

/-- Configuration in which the handle of the write in flight is the handle the
most recent read returned. -/
def inFlightIsLastRead : Config Int :=
  { latch := { positions := Positions.val 1 3, retryCnt := 0, buffer_1 := 4, buffer_2 := 1,
               buffer_3 := 3 }
    inFlight := some Slot.buffer_2
    lastRead := some Slot.buffer_2 }

/-- Latch in the transitional state (2,1), as after construct(0) and one write
cycle of payload 1. -/
def writtenOnce : LockFreeLatch Int :=
  { positions := Positions.val 2 1
    retryCnt := 0
    buffer_1 := 0
    buffer_2 := 1
    buffer_3 := 0 }

/-! ## Writer table -/

/-- C1: in each of the nine legal states (R,N) `acquireWrite` returns the slot
of the table: (1,2)->3, (1,3)->2, (2,3)->1, (2,1)->3, (3,1)->2, (3,2)->1,
(1,1)->2, (2,2)->3, (3,3)->1, whatever the other members of the latch hold. -/
theorem acquireWrite_table (l : LockFreeLatch T) :
    acquireWrite { l with positions := Positions.val 1 2 } = some Slot.buffer_3 ∧
    acquireWrite { l with positions := Positions.val 1 3 } = some Slot.buffer_2 ∧
    acquireWrite { l with positions := Positions.val 2 3 } = some Slot.buffer_1 ∧
    acquireWrite { l with positions := Positions.val 2 1 } = some Slot.buffer_3 ∧
    acquireWrite { l with positions := Positions.val 3 1 } = some Slot.buffer_2 ∧
    acquireWrite { l with positions := Positions.val 3 2 } = some Slot.buffer_1 ∧
    acquireWrite { l with positions := Positions.val 1 1 } = some Slot.buffer_2 ∧
    acquireWrite { l with positions := Positions.val 2 2 } = some Slot.buffer_3 ∧
    acquireWrite { l with positions := Positions.val 3 3 } = some Slot.buffer_1 := by
  refine ⟨?_, ?_, ?_, ?_, ?_, ?_, ?_, ?_, ?_⟩ <;>
    simp [acquireWrite, Positions.val]

/-- C2: in every legal state (R,N) `acquireWrite` returns a handle (not `NULL`)
to a slot of index in 1..3 that differs from R and from N. -/
theorem acquireWrite_disjoint (l : LockFreeLatch T) (R N : Nat) (h : Legal R N)
    (hl : l.positions = Positions.val R N) :
    ∃ w, l.acquireWrite = some w ∧ SlotIndex w.index ∧ w.index ≠ R ∧ w.index ≠ N := by
  obtain ⟨⟨h1, h2⟩, ⟨h3, h4⟩⟩ := h
  interval_cases R <;> interval_cases N <;>
    simp [acquireWrite, hl, Positions.val, Slot.index, SlotIndex]

/-- Witness of C2 at the freshly constructed latch, state (1,1). -/
theorem acquireWrite_disjoint_witness :
    ∃ w, (construct (0 : Int) 0 0).acquireWrite = some w ∧ SlotIndex w.index ∧
      w.index ≠ 1 ∧ w.index ≠ 1 :=
  acquireWrite_disjoint (construct (0 : Int) 0 0) 1 1 (by decide) rfl

/-! ## releaseWrite against acquireWrite -/

/-- C3 (fails on the code): after construct(0), one write cycle and one read the
latch is in the legal state (2,2); there `acquireWrite` hands out `buffer_3`,
and the following `releaseWrite` moves the state word to (1,2): it publishes
slot 1, not the slot 3 that was acquired and filled. No exchange fails
spuriously. -/
theorem releaseWrite_publishes_other_slot :
    ∃ l : LockFreeLatch Int,
      (run 1 (construct 0 0 0) [Op.write 1 [], Op.read []]).map Prod.snd = some l ∧
      l.positions = Positions.val 2 2 ∧
      l.acquireWrite = some Slot.buffer_3 ∧
      ((l.fill Slot.buffer_3 2).releaseWrite []).positions = Positions.val 1 2 ∧
      stateR ((l.fill Slot.buffer_3 2).releaseWrite []).positions = 1 := by
  refine ⟨{ positions := Positions.val 2 2, retryCnt := 0, buffer_1 := 0, buffer_2 := 1,
            buffer_3 := 0 }, ?_, ?_, ?_, ?_, ?_⟩ <;> decide

/-- C4 (fails on the code): after construct(0), two write cycles, one read and
one more write cycle the latch is in the legal state (1,3); there none of the
nine exchanges of `releaseWrite` has the state word as its expected value, so
the call falls through all of them and leaves the latch as it was. No exchange
fails spuriously. -/
theorem releaseWrite_falls_through :
    ∃ l : LockFreeLatch Int,
      (run 1 (construct 0 0 0)
        [Op.write 1 [], Op.write 2 [], Op.read [], Op.write 3 []]).map Prod.snd = some l ∧
      l.positions = Positions.val 1 3 ∧
      releaseWriteCas [] l.positions = none ∧
      l.releaseWrite [] = l := by
  refine ⟨{ positions := Positions.val 1 3, retryCnt := 0, buffer_1 := 3, buffer_2 := 1,
            buffer_3 := 2 }, ?_, ?_, ?_, ?_⟩ <;> decide

/-! ## Sequential scenarios -/

/-- C5 (fails on the code): in the sequential scenario construct(0), read, then
for v = 1..5 a write cycle of v followed by a read, with no spurious failure,
the reads return 0, 1, 0, 3, 0, 5 (not 0, 1, 2, 3, 4, 5), whatever the two
uninitialised buffers held and however much fuel (at least one pass) the reads
get. -/
theorem sequential_scenario_reads (fuel : Nat) (junk_2 junk_3 : Int) :
    (run (fuel + 1) (construct 0 junk_2 junk_3)
      [Op.read [], Op.write 1 [], Op.read [], Op.write 2 [], Op.read [], Op.write 3 [],
       Op.read [], Op.write 4 [], Op.read [], Op.write 5 [], Op.read []]).map Prod.fst
      = some [0, 1, 0, 3, 0, 5] := by
  simp [run, readValue, read, readLoop, writeCycle, acquireWrite, releaseWrite, releaseWriteCas,
    firstCas, compare_exchange_weak, releaseWriteCandidates, readCandidates, construct, fill, get,
    Positions.val]

/-- C6 (fails on the code): in the history write, read, write, read from
construct(0), with payloads from the counter 1, 2, ... and no spurious
failure, the two reads return 1 and then 0: the second read returns an older
value than the first. -/
theorem reads_not_monotone :
    (run 1 (construct 0 0 0)
      (counterOps 0 [Call.write [], Call.read [], Call.write [], Call.read []])).map Prod.fst
      = some [1, 0] ∧
    ¬ List.Sorted (fun a b : Int => a ≤ b) [1, 0] := by
  constructor
  · decide
  · decide

/-! ## Exchanges under spurious failure -/

/-- A run of exchanges that succeeds took one of them, from a state word equal
to its expected value, whichever exchanges failed spuriously. -/
theorem firstCas_some {ρ : Type} (cands : List (Nat × Nat × ρ)) :
    ∀ (fails : List Bool) (p : Nat) (r : ρ) (p' : Nat),
      firstCas fails cands p = some (r, p') → (p, p', r) ∈ cands := by
  induction cands with
  | nil => intro fails p r p' h; simp [firstCas] at h
  | cons c rest ih =>
    obtain ⟨e, d, r0⟩ := c
    intro fails p r p' h
    unfold firstCas compare_exchange_weak at h
    by_cases hs : fails.headD false = true
    · simp only [hs, if_true] at h
      exact List.mem_cons_of_mem _ (ih _ _ _ _ h)
    · by_cases hp : p = e
      · simp only [hs, hp, if_true] at h
        simp only [Bool.false_eq_true, if_false, Option.some.injEq, Prod.mk.injEq] at h
        obtain ⟨rfl, rfl⟩ := h
        exact hp ▸ List.mem_cons_self _ _
      · simp only [hs, hp, if_false] at h
        simp only [Bool.false_eq_true, if_false] at h
        exact List.mem_cons_of_mem _ (ih _ _ _ _ h)

/-- The loop of `read`, when it returns, took one of the twelve exchanges from
the state word it started with. -/
theorem readLoop_some :
    ∀ (fuel : Nat) (fails : List Bool) (p : Nat) (c : Int) (s : Slot) (p' : Nat) (c' : Int),
      readLoop fuel fails p c = some (s, p', c') → (p, p', s) ∈ readCandidates := by
  intro fuel
  induction fuel with
  | zero => intro fails p c s p' c' h; simp [readLoop] at h
  | succ n ih =>
    intro fails p c s p' c' h
    unfold readLoop at h
    cases hf : firstCas fails readCandidates p with
    | none =>
      rw [hf] at h
      exact ih _ _ _ _ _ _ h
    | some r =>
      obtain ⟨s1, p1⟩ := r
      rw [hf] at h
      simp only [Option.some.injEq, Prod.mk.injEq] at h
      obtain ⟨rfl, rfl, _⟩ := h
      exact firstCas_some _ _ _ _ _ hf

/-- Fields of a legal state word. -/
theorem state_fields (R N : Nat) (h : Legal R N) :
    stateR (Positions.val R N) = R ∧ stateN (Positions.val R N) = N := by
  obtain ⟨⟨h1, h2⟩, ⟨h3, h4⟩⟩ := h
  interval_cases R <;> interval_cases N <;> simp [Positions.val, stateR, stateN]

/-- Each exchange of `read` expects a transitional state (R,N), leads to the
stable state (R,R) and returns the handle of slot R. -/
theorem readCandidates_claim :
    ∀ x ∈ readCandidates,
      x.2.1 = Positions.val (stateR x.1) (stateR x.1) ∧ x.2.2.index = stateR x.1 ∧
      stateR x.1 ≠ stateN x.1 := by
  decide

/-- Each exchange of `releaseWrite` leads to a legal, transitional state. -/
theorem releaseWriteCandidates_desired :
    ∀ x ∈ releaseWriteCandidates,
      Legal (stateR x.2.1) (stateN x.2.1) ∧
      x.2.1 = Positions.val (stateR x.2.1) (stateN x.2.1) ∧ stateR x.2.1 ≠ stateN x.2.1 := by
  decide

/-- Method `read` in one piece: the three stable-state tests, then the loop. -/
theorem read_eq (fails : List Bool) (fuel : Nat) (l : LockFreeLatch T) :
    l.read fails fuel =
      if l.positions = Positions.val 1 1 then some (Slot.buffer_1, { l with retryCnt := 0 })
      else if l.positions = Positions.val 2 2 then some (Slot.buffer_2, { l with retryCnt := 0 })
      else if l.positions = Positions.val 3 3 then some (Slot.buffer_3, { l with retryCnt := 0 })
      else (readLoop fuel fails l.positions 0).map
        (fun r => (r.1, { l with positions := r.2.1, retryCnt := r.2.2 })) := by
  unfold read
  simp only
  split_ifs <;> try rfl
  cases readLoop fuel fails l.positions 0 <;> rfl

/-- A whole `read` that returns, from a legal state (R,N), returns the handle of
slot R and leaves the state word at (R,R) and the buffers as they were,
whichever exchanges failed spuriously. -/
theorem read_result (l l' : LockFreeLatch T) (R N : Nat) (h : Legal R N)
    (hl : l.positions = Positions.val R N) (fails : List Bool) (fuel : Nat) (s : Slot)
    (hr : l.read fails fuel = some (s, l')) :
    s.index = R ∧ l'.positions = Positions.val R R ∧ ∀ b, l'.get b = l.get b := by
  have hf := state_fields R N h
  rw [read_eq] at hr
  split_ifs at hr with h11 h22 h33
  · simp only [Option.some.injEq, Prod.mk.injEq] at hr
    obtain ⟨rfl, rfl⟩ := hr
    have hR : R = 1 := by rw [← hf.1, ← hl, h11]; decide
    subst hR
    exact ⟨rfl, h11, fun b => by cases b <;> rfl⟩
  · simp only [Option.some.injEq, Prod.mk.injEq] at hr
    obtain ⟨rfl, rfl⟩ := hr
    have hR : R = 2 := by rw [← hf.1, ← hl, h22]; decide
    subst hR
    exact ⟨rfl, h22, fun b => by cases b <;> rfl⟩
  · simp only [Option.some.injEq, Prod.mk.injEq] at hr
    obtain ⟨rfl, rfl⟩ := hr
    have hR : R = 3 := by rw [← hf.1, ← hl, h33]; decide
    subst hR
    exact ⟨rfl, h33, fun b => by cases b <;> rfl⟩
  · cases hloop : readLoop fuel fails l.positions 0 with
    | none => rw [hloop] at hr; simp at hr
    | some r =>
      obtain ⟨s1, p1, c1⟩ := r
      rw [hloop] at hr
      simp only [Option.map_some', Option.some.injEq, Prod.mk.injEq] at hr
      obtain ⟨rfl, rfl⟩ := hr
      obtain ⟨hd, hs, _⟩ := readCandidates_claim _ (readLoop_some _ _ _ _ _ _ _ hloop)
      simp only at hd hs
      rw [hl, hf.1] at hd hs
      exact ⟨hs, hd, fun b => by cases b <;> rfl⟩

/-- A whole `releaseWrite` either leaves the latch as it was or took one of its
nine exchanges from the state word it found, whichever exchanges failed
spuriously. -/
theorem releaseWrite_cases (fails : List Bool) (l : LockFreeLatch T) :
    l.releaseWrite fails = l ∨
    ∃ x ∈ releaseWriteCandidates, x.1 = l.positions ∧
      l.releaseWrite fails = { l with positions := x.2.1 } := by
  unfold releaseWrite releaseWriteCas
  cases hf : firstCas fails releaseWriteCandidates l.positions with
  | none => exact Or.inl rfl
  | some r =>
    obtain ⟨u, p'⟩ := r
    exact Or.inr ⟨(l.positions, p', u), firstCas_some _ _ _ _ _ hf, rfl, rfl⟩

/-- A whole `releaseWrite` from a legal state ends in a legal state, whichever
exchanges failed spuriously. -/
theorem releaseWrite_legal_any (fails : List Bool) (l : LockFreeLatch T) (R N : Nat)
    (h : Legal R N) (hl : l.positions = Positions.val R N) :
    ∃ R2 N2, Legal R2 N2 ∧ (l.releaseWrite fails).positions = Positions.val R2 N2 := by
  rcases releaseWrite_cases fails l with hsame | ⟨x, hx, _, hnew⟩
  · exact ⟨R, N, h, by rw [hsame]; exact hl⟩
  · obtain ⟨hleg, hval, _⟩ := releaseWriteCandidates_desired x hx
    exact ⟨_, _, hleg, by rw [hnew]; exact hval⟩

/-- From a state word that one of the twelve exchanges expects, the loop of
`read` returns once the spurious failures are used up. -/
theorem readLoop_returns (p : Nat) (hp : (firstCas [] readCandidates p).isSome = true) :
    ∀ (n : Nat) (fails : List Bool), fails.length ≤ n →
      ∀ c, ∃ fuel r, readLoop fuel fails p c = some r := by
  intro n
  induction n with
  | zero =>
    intro fails hlen c
    have hnil : fails = [] := List.length_eq_zero.mp (Nat.le_zero.mp hlen)
    subst hnil
    cases hf : firstCas [] readCandidates p with
    | none => rw [hf] at hp; exact absurd hp (by decide)
    | some r => exact ⟨1, (r.1, r.2, c), by simp [readLoop, hf]⟩
  | succ n ih =>
    intro fails hlen c
    cases hf : firstCas fails readCandidates p with
    | some r => exact ⟨1, (r.1, r.2, c), by simp [readLoop, hf]⟩
    | none =>
      have hne : fails ≠ [] := by
        intro hnil
        subst hnil
        rw [hf] at hp
        exact absurd hp (by decide)
      have hpos : 0 < fails.length := List.length_pos.mpr hne
      have hdrop : (fails.drop 12).length ≤ n := by
        rw [List.length_drop]
        omega
      obtain ⟨fuel, r, h⟩ := ih (fails.drop 12) hdrop (c + 1)
      exact ⟨fuel + 1, r, by simp [readLoop, hf, h]⟩

/-- In a legal state a whole `read` returns when given enough fuel, whichever
(finitely many) exchanges fail spuriously. -/
theorem read_returns (l : LockFreeLatch T) (R N : Nat) (h : Legal R N)
    (hl : l.positions = Positions.val R N) (fails : List Bool) :
    ∃ fuel s l', l.read fails fuel = some (s, l') := by
  by_cases hst : (firstCas [] readCandidates l.positions).isSome = true
  · obtain ⟨fuel, r, hloop⟩ := readLoop_returns l.positions hst fails.length fails le_rfl 0
    refine ⟨fuel, ?_⟩
    rw [read_eq, hloop]
    split_ifs <;> exact ⟨_, _, rfl⟩
  · refine ⟨0, ?_⟩
    rw [read_eq]
    obtain ⟨⟨h1, h2⟩, ⟨h3, h4⟩⟩ := h
    interval_cases R <;> interval_cases N <;>
      first
      | exact absurd (by rw [hl]; decide) hst
      | (rw [hl]; exact ⟨_, _, rfl⟩)

/-! ## Reader protocol on legal states -/

/-- C9: in every legal state (R,N) a whole `read` (any fuel of at least one pass)
returns the handle of slot R and leaves the state word at (R,R), the buffers
untouched; so R is unchanged, and in a stable state the state word is
unchanged. Spurious failures of its exchanges only delay the return: whichever
exchanges fail spuriously, `read` returns with enough fuel, and whenever it
returns it returns the handle of slot R and leaves the state word at (R,R). -/
theorem read_claims_readable (l : LockFreeLatch T) (R N : Nat) (h : Legal R N)
    (hl : l.positions = Positions.val R N) (fuel : Nat) :
    (∃ s, l.read [] (fuel + 1)
        = some (s, { l with positions := Positions.val R R, retryCnt := 0 }) ∧
      s.index = R ∧
      stateR (Positions.val R R) = stateR l.positions ∧
      (R = N → Positions.val R R = l.positions)) ∧
    (∀ fails, ∃ fuel2 s2 l2, l.read fails fuel2 = some (s2, l2)) ∧
    (∀ fails fuel2 s2 l2, l.read fails fuel2 = some (s2, l2) →
      s2.index = R ∧ l2.positions = Positions.val R R ∧ ∀ b, l2.get b = l.get b) := by
  refine ⟨?_, fun fails => read_returns l R N h hl fails,
    fun fails fuel2 s2 l2 hr => read_result l l2 R N h hl fails fuel2 s2 hr⟩
  obtain ⟨⟨h1, h2⟩, ⟨h3, h4⟩⟩ := h
  interval_cases R <;> interval_cases N <;>
    simp [read, readLoop, firstCas, compare_exchange_weak, readCandidates, hl, Positions.val,
      Slot.index, stateR]

/-- Witness of C9 at the transitional state (2,1). -/
theorem read_claims_readable_witness :
    (∃ s, writtenOnce.read [] (0 + 1)
        = some (s, { writtenOnce with positions := Positions.val 2 2, retryCnt := 0 }) ∧
      s.index = 2 ∧
      stateR (Positions.val 2 2) = stateR writtenOnce.positions ∧
      (2 = 1 → Positions.val 2 2 = writtenOnce.positions)) ∧
    (∀ fails, ∃ fuel2 s2 l2, writtenOnce.read fails fuel2 = some (s2, l2)) ∧
    (∀ fails fuel2 s2 l2, writtenOnce.read fails fuel2 = some (s2, l2) →
      s2.index = 2 ∧ l2.positions = Positions.val 2 2 ∧ ∀ b, l2.get b = writtenOnce.get b) :=
  read_claims_readable writtenOnce 2 1 (by decide) rfl 0

/-! ## releaseWrite frame -/

/-- C10: in every legal state (R,N) a whole `releaseWrite` whose exchanges
succeed exactly when the state word equals the expected value leaves N
unchanged: the state word afterwards is (R2,N) for a slot index R2, with the
same N. -/
theorem releaseWrite_preserves_N (l : LockFreeLatch T) (R N : Nat) (h : Legal R N)
    (hl : l.positions = Positions.val R N) :
    stateN (l.releaseWrite []).positions = stateN l.positions ∧
    stateN (l.releaseWrite []).positions = N ∧
    SlotIndex (stateR (l.releaseWrite []).positions) ∧
    (l.releaseWrite []).positions = Positions.val (stateR (l.releaseWrite []).positions) N := by
  obtain ⟨⟨h1, h2⟩, ⟨h3, h4⟩⟩ := h
  interval_cases R <;> interval_cases N <;>
    simp [releaseWrite, releaseWriteCas, firstCas, compare_exchange_weak, releaseWriteCandidates,
      hl, Positions.val, stateN, stateR, SlotIndex]

/-- Witness of C10 at the stable state (1,1). -/
theorem releaseWrite_preserves_N_witness :
    stateN ((construct (0 : Int) 0 0).releaseWrite []).positions
      = stateN (construct (0 : Int) 0 0).positions ∧
    stateN ((construct (0 : Int) 0 0).releaseWrite []).positions = 1 ∧
    SlotIndex (stateR ((construct (0 : Int) 0 0).releaseWrite []).positions) ∧
    ((construct (0 : Int) 0 0).releaseWrite []).positions
      = Positions.val (stateR ((construct (0 : Int) 0 0).releaseWrite []).positions) 1 :=
  releaseWrite_preserves_N (construct (0 : Int) 0 0) 1 1 (by decide) rfl

/-! ## Write cycles without a read in between -/

/-- When no exchange fails spuriously, a write cycle started in state (1,1),
(2,1) or (3,1) publishes its payload and leaves the latch in state (2,1) or
(3,1). -/
theorem writeCycle_published (l : LockFreeLatch T) (v : T)
    (h : l.positions = Positions.val 1 1 ∨ l.positions = Positions.val 2 1 ∨
      l.positions = Positions.val 3 1) :
    ∃ l', writeCycle [] l v = some l' ∧ Published l' v := by
  rcases h with h | h | h <;>
    simp [writeCycle, acquireWrite, releaseWrite, releaseWriteCas, firstCas,
      compare_exchange_weak, releaseWriteCandidates, fill, Published, h, Positions.val]

/-- A read right after a publication returns the published payload. -/
theorem readValue_published (fuel : Nat) (l : LockFreeLatch T) (v : T) (h : Published l v) :
    ∃ l', readValue [] (fuel + 1) l = some (v, l') := by
  rcases h with ⟨h, hv⟩ | ⟨h, hv⟩ <;>
    simp [readValue, read, readLoop, firstCas, compare_exchange_weak, readCandidates, get, h, hv,
      Positions.val]

/-- When no exchange fails spuriously, write cycles followed by one read, from
any state in which the reader claims slot 1: the read returns the payload of
the last write cycle. -/
theorem run_writes_then_read (fuel : Nat) :
    ∀ (vs : List T) (hvs : vs ≠ []) (l : LockFreeLatch T),
      (l.positions = Positions.val 1 1 ∨ l.positions = Positions.val 2 1 ∨
        l.positions = Positions.val 3 1) →
      (run (fuel + 1) l (vs.map (fun v => Op.write v []) ++ [Op.read []])).map Prod.fst
        = some [vs.getLast hvs] := by
  intro vs
  induction vs with
  | nil => intro hvs; exact absurd rfl hvs
  | cons v rest ih =>
    intro hvs l hl
    obtain ⟨l1, hw, hp⟩ := writeCycle_published l v hl
    cases rest with
    | nil =>
      obtain ⟨l2, hr⟩ := readValue_published fuel l1 v hp
      simp [run, hw, hr]
    | cons v2 rest2 =>
      have hl1 : l1.positions = Positions.val 1 1 ∨ l1.positions = Positions.val 2 1 ∨
          l1.positions = Positions.val 3 1 := by
        rcases hp with ⟨h, _⟩ | ⟨h, _⟩
        · exact Or.inr (Or.inl h)
        · exact Or.inr (Or.inr h)
      have := ih (List.cons_ne_nil v2 rest2) l1 hl1
      simpa [run, hw] using this

/-- When no exchange fails spuriously: from a freshly constructed latch, n >= 1
write cycles with payloads v1..vn and no read in between, followed by a read
(any fuel of at least one pass): every call returns and the read returns the
payload vn. -/
theorem read_after_writes_returns_last (src junk_2 junk_3 : T) (vs : List T) (hvs : vs ≠ [])
    (fuel : Nat) :
    (run (fuel + 1) (construct src junk_2 junk_3)
      (vs.map (fun v => Op.write v []) ++ [Op.read []])).map Prod.fst
      = some [vs.getLast hvs] :=
  run_writes_then_read fuel vs hvs (construct src junk_2 junk_3) (Or.inl rfl)

/-- C7 (fails on the code): from construct(0), one complete write cycle of
payload 7 in whose `releaseWrite` the exchange (1,1) -> (2,1), the only one
that expects the state word, fails spuriously: the payload is stored in
`buffer_2` but all nine exchanges fail, the state word stays (1,1), and the
following read returns the initial payload 0, not 7. Without the spurious
failure the same read returns 7. -/
theorem write_lost_by_spurious_failure :
    (run 1 (construct (0 : Int) 0 0) [Op.write 7 seventhFails, Op.read []]).map Prod.fst
      = some [0] ∧
    writeCycle seventhFails (construct (0 : Int) 0 0) 7
      = some ((construct (0 : Int) 0 0).fill Slot.buffer_2 7) ∧
    releaseWriteCas seventhFails (Positions.val 1 1) = none ∧
    (run 1 (construct (0 : Int) 0 0) [Op.write 7 [], Op.read []]).map Prod.fst = some [7] := by
  refine ⟨?_, ?_, ?_, ?_⟩ <;> decide

/-! ## Writer/reader slot exclusion -/

/-- A whole `releaseWrite` without spurious failure, from a legal state (R,N),
ends in a legal state with the same N. -/
theorem releaseWrite_legal (l : LockFreeLatch T) (R N : Nat) (h : Legal R N)
    (hl : l.positions = Positions.val R N) :
    ∃ R2, Legal R2 N ∧ (l.releaseWrite []).positions = Positions.val R2 N := by
  refine ⟨stateR (l.releaseWrite []).positions, ?_⟩
  obtain ⟨⟨h1, h2⟩, ⟨h3, h4⟩⟩ := h
  interval_cases R <;> interval_cases N <;>
    simp [releaseWrite, releaseWriteCas, firstCas, compare_exchange_weak, releaseWriteCandidates,
      hl, Positions.val, stateR, SlotIndex, Legal]

/-- The handle `acquireWrite` returns in a legal state (R,N) differs from R and
from N. -/
theorem acquireWrite_result (l : LockFreeLatch T) (R N : Nat) (h : Legal R N)
    (hl : l.positions = Positions.val R N) (w : Slot) (hw : l.acquireWrite = some w) :
    w.index ≠ R ∧ w.index ≠ N := by
  obtain ⟨⟨h1, h2⟩, ⟨h3, h4⟩⟩ := h
  interval_cases R <;> interval_cases N <;>
    simp [acquireWrite, hl, Positions.val] at hw <;> subst hw <;> simp [Slot.index]

/-- The invariant holds in every configuration reachable by whole calls without
spurious failure. -/
theorem reachable_inv (c : Config T) (hc : Reachable false c) : Inv c := by
  induction hc with
  | construct src junk_2 junk_3 =>
    exact ⟨1, 1, by decide, rfl, fun w hw => (by cases hw), fun r hr => (by cases hr)⟩
  | step hreach hstep ih =>
    obtain ⟨R, N, hleg, hpos, hw, hr⟩ := ih
    cases hstep with
    | acquireWrite w hnone hacq =>
      refine ⟨R, N, hleg, hpos, ?_, hr⟩
      intro w2 hw2
      cases hw2
      exact acquireWrite_result _ R N hleg hpos w hacq
    | fill w v hfl =>
      refine ⟨R, N, hleg, ?_, hw, hr⟩
      cases w <;> simpa [fill] using hpos
    | releaseWrite w fails hfails hfl =>
      have hnil : fails = [] := by
        rcases hfails with hf | hf
        · exact absurd hf (by decide)
        · exact hf
      subst hnil
      obtain ⟨R2, hleg2, hpos2⟩ := releaseWrite_legal _ R N hleg hpos
      exact ⟨R2, N, hleg2, hpos2, fun w2 hw2 => (by cases hw2), hr⟩
    | read fails fuel r l2 hfails hread =>
      obtain ⟨hidx, hpos2, _⟩ := read_result _ l2 R N hleg hpos fails fuel r hread
      refine ⟨R, R, ⟨hleg.1, hleg.1⟩, hpos2, ?_, ?_⟩
      · intro w2 hw2
        exact ⟨(hw w2 hw2).1, (hw w2 hw2).1⟩
      · intro r2 hr2
        cases hr2
        exact hidx

/-- When no exchange fails spuriously: in every configuration reachable from a
constructed latch by whole calls (acquireWrite with no write in flight, fills
and releaseWrite with a write in flight, read at any time), when a write is in
flight and a read has returned, the handle of the write in flight differs from
the handle returned by the most recent read. -/
theorem inFlight_ne_lastRead (c : Config T) (hc : Reachable false c) (w r : Slot)
    (hw : c.inFlight = some w) (hr : c.lastRead = some r) : w ≠ r := by
  obtain ⟨R, N, _, _, hw2, hr2⟩ := reachable_inv c hc
  intro heq
  subst heq
  exact (hw2 w hw).2 (hr2 w hr)

/-- C8 (fails on the code): the configuration `inFlightIsLastRead` is reached
from construct(0) by the whole calls: a write cycle of 1; a read (returns
`buffer_2`); a write cycle of 2; a write cycle of 3 in whose `releaseWrite` the
first exchange fails spuriously, so that the second, (1,2) -> (2,3), succeeds;
a write cycle of 4; and an `acquireWrite`, which in state (1,3) hands out
`buffer_2`: the handle of the write in flight is the handle returned by the
most recent read. -/
theorem inFlight_is_lastRead :
    Reachable true inFlightIsLastRead ∧
    inFlightIsLastRead.inFlight = some Slot.buffer_2 ∧
    inFlightIsLastRead.lastRead = some Slot.buffer_2 := by
  have h0 : Reachable true
      ({ latch := construct (0 : Int) 0 0, inFlight := none, lastRead := none } : Config Int) :=
    Reachable.construct 0 0 0
  have h1 := Reachable.step h0 (Step.acquireWrite _ Slot.buffer_2 rfl rfl)
  have h2 := Reachable.step h1 (Step.fill _ Slot.buffer_2 1 rfl)
  have h3 := Reachable.step h2 (Step.releaseWrite _ Slot.buffer_2 [] (Or.inl rfl) rfl)
  have h4 := Reachable.step h3 (Step.read _ [] 1 Slot.buffer_2 _ (Or.inl rfl) rfl)
  have h5 := Reachable.step h4 (Step.acquireWrite _ Slot.buffer_3 rfl rfl)
  have h6 := Reachable.step h5 (Step.fill _ Slot.buffer_3 2 rfl)
  have h7 := Reachable.step h6 (Step.releaseWrite _ Slot.buffer_3 [] (Or.inl rfl) rfl)
  have h8 := Reachable.step h7 (Step.acquireWrite _ Slot.buffer_3 rfl rfl)
  have h9 := Reachable.step h8 (Step.fill _ Slot.buffer_3 3 rfl)
  have h10 := Reachable.step h9 (Step.releaseWrite _ Slot.buffer_3 [true] (Or.inl rfl) rfl)
  have h11 := Reachable.step h10 (Step.acquireWrite _ Slot.buffer_1 rfl rfl)
  have h12 := Reachable.step h11 (Step.fill _ Slot.buffer_1 4 rfl)
  have h13 := Reachable.step h12 (Step.releaseWrite _ Slot.buffer_1 [] (Or.inl rfl) rfl)
  have h14 := Reachable.step h13 (Step.acquireWrite _ Slot.buffer_2 rfl rfl)
  exact ⟨h14, rfl, rfl⟩

/-! ## Valid handles in reachable states -/

/-- In a legal state `acquireWrite` does not return `NULL`. -/
theorem acquireWrite_some_of_legal (l : LockFreeLatch T) (R N : Nat) (h : Legal R N)
    (hl : l.positions = Positions.val R N) : ∃ w, l.acquireWrite = some w := by
  obtain ⟨⟨h1, h2⟩, ⟨h3, h4⟩⟩ := h
  interval_cases R <;> interval_cases N <;> simp [acquireWrite, hl, Positions.val]

/-- In a legal state `read` without spurious failure returns within its first
pass. -/
theorem read_some_of_legal (l : LockFreeLatch T) (R N : Nat) (h : Legal R N)
    (hl : l.positions = Positions.val R N) (fuel : Nat) :
    ∃ s l', l.read [] (fuel + 1) = some (s, l') := by
  obtain ⟨⟨h1, h2⟩, ⟨h3, h4⟩⟩ := h
  interval_cases R <;> interval_cases N <;>
    simp [read, readLoop, firstCas, compare_exchange_weak, readCandidates, hl, Positions.val]

/-- The state word of every reachable latch is a legal encoding. -/
theorem reachableLatch_legal (l : LockFreeLatch T) (hl : ReachableLatch l) :
    ∃ R N, Legal R N ∧ l.positions = Positions.val R N := by
  induction hl with
  | construct src junk_2 junk_3 => exact ⟨1, 1, by decide, rfl⟩
  | fill s v _ ih =>
    obtain ⟨R, N, hleg, hpos⟩ := ih
    refine ⟨R, N, hleg, ?_⟩
    cases s <;> simpa [fill] using hpos
  | releaseWrite fails _ ih =>
    obtain ⟨R, N, hleg, hpos⟩ := ih
    exact releaseWrite_legal_any fails _ R N hleg hpos
  | read fails fuel s _ hread ih =>
    obtain ⟨R, N, hleg, hpos⟩ := ih
    obtain ⟨_, hpos2, _⟩ := read_result _ _ R N hleg hpos fails fuel s hread
    exact ⟨R, R, ⟨hleg.1, hleg.1⟩, hpos2⟩

/-- C11: in every latch reachable from construction by whole calls in any
order, whichever of their exchanges fail spuriously, the state word is one of
the nine legal encodings of (R,N), so `acquireWrite` returns a handle (not
`NULL`) and `read` returns a handle: within its first pass when no exchange
fails spuriously, and with enough fuel whichever exchanges do. -/
theorem reachable_valid_handles (l : LockFreeLatch T) (hl : ReachableLatch l) :
    (∃ R N, Legal R N ∧ l.positions = Positions.val R N) ∧
    (∃ w, l.acquireWrite = some w ∧ SlotIndex w.index) ∧
    (∀ fuel, ∃ s l', l.read [] (fuel + 1) = some (s, l') ∧ SlotIndex s.index) ∧
    (∀ fails, ∃ fuel s l', l.read fails fuel = some (s, l') ∧ SlotIndex s.index) := by
  obtain ⟨R, N, hleg, hpos⟩ := reachableLatch_legal l hl
  refine ⟨⟨R, N, hleg, hpos⟩, ?_, ?_, ?_⟩
  · obtain ⟨w, hw⟩ := acquireWrite_some_of_legal l R N hleg hpos
    exact ⟨w, hw, by cases w <;> decide⟩
  · intro fuel
    obtain ⟨s, l2, hs⟩ := read_some_of_legal l R N hleg hpos fuel
    exact ⟨s, l2, hs, by cases s <;> decide⟩
  · intro fails
    obtain ⟨fuel, s, l2, hs⟩ := read_returns l R N hleg hpos fails
    exact ⟨fuel, s, l2, hs, by cases s <;> decide⟩

/-- Witness of C11 at the latch after construct(0), a write cycle and a read. -/
theorem reachable_valid_handles_witness :
    (∃ R N, Legal R N ∧ writtenThenRead.positions = Positions.val R N) ∧
    (∃ w, writtenThenRead.acquireWrite = some w ∧ SlotIndex w.index) ∧
    (∀ fuel, ∃ s l', writtenThenRead.read [] (fuel + 1) = some (s, l') ∧ SlotIndex s.index) ∧
    (∀ fails, ∃ fuel s l', writtenThenRead.read fails fuel = some (s, l') ∧
      SlotIndex s.index) :=
  reachable_valid_handles writtenThenRead
    (ReachableLatch.read [] 1 Slot.buffer_2
      (ReachableLatch.releaseWrite []
        (ReachableLatch.fill Slot.buffer_2 1 (ReachableLatch.construct (0 : Int) 0 0)))
      (by decide))

/-! ## Construction -/

/-- C12: for every initial value `src` the constructed latch is in state (1,1)
with `buffer_1` holding `src`, and a read right after construction (any fuel,
whichever exchanges would fail spuriously: it attempts none) returns the handle
of `buffer_1`, whose payload is `src`, and leaves the latch as constructed. -/
theorem construct_then_read (src junk_2 junk_3 : T) (fails : List Bool) (fuel : Nat) :
    (construct src junk_2 junk_3).positions = Positions.val 1 1 ∧
    stateR (construct src junk_2 junk_3).positions = 1 ∧
    stateN (construct src junk_2 junk_3).positions = 1 ∧
    (construct src junk_2 junk_3).get Slot.buffer_1 = src ∧
    (construct src junk_2 junk_3).read fails fuel
      = some (Slot.buffer_1, construct src junk_2 junk_3) ∧
    readValue fails fuel (construct src junk_2 junk_3)
      = some (src, construct src junk_2 junk_3) := by
  refine ⟨rfl, ?_, ?_, rfl, ?_, ?_⟩ <;>
    simp [readValue, read, construct, get, Positions.val, stateR, stateN]

/-! ## The exchanges of releaseWrite -/

/-- C14 (fails on the code): of the nine exchanges of `releaseWrite`, exactly the
second, (1,2) -> (2,3), and the sixth, (2,2) -> (1,2), do not keep N or do not
set R to the slot `acquireWrite` hands out in their expected state (slot 3 in
both); the seven others do. -/
theorem releaseWrite_candidates_off_table :
    releaseWriteCandidates.filter (fun c => decide (¬ PublishesAcquired c))
      = [ (Positions.val 1 2, Positions.val 2 3, ()),
          (Positions.val 2 2, Positions.val 1 2, ()) ] ∧
    acquiredIndex (Positions.val 1 2) = some 3 ∧
    acquiredIndex (Positions.val 2 2) = some 3 ∧
    (releaseWriteCandidates.filter (fun c => decide (PublishesAcquired c))).length = 7 := by
  refine ⟨?_, ?_, ?_, ?_⟩ <;> decide

/-- C15 (fails on the code): the legal states (1,3) and (3,2) are the expected
value of no exchange of `releaseWrite`, (1,2) and (2,2) of two each, and the
five other legal states of one each. -/
theorem releaseWrite_expected_counts :
    expectedCount (Positions.val 1 3) = 0 ∧ expectedCount (Positions.val 3 2) = 0 ∧
    expectedCount (Positions.val 1 2) = 2 ∧ expectedCount (Positions.val 2 2) = 2 ∧
    expectedCount (Positions.val 1 1) = 1 ∧ expectedCount (Positions.val 2 1) = 1 ∧
    expectedCount (Positions.val 2 3) = 1 ∧ expectedCount (Positions.val 3 1) = 1 ∧
    expectedCount (Positions.val 3 3) = 1 := by
  refine ⟨?_, ?_, ?_, ?_, ?_, ?_, ?_, ?_, ?_⟩ <;> decide

/-- When no exchange fails spuriously, from every legal state the state word
after a whole `releaseWrite` is transitional (R differs from N); and the
desired value of each of its nine exchanges is transitional. -/
theorem releaseWrite_transitional (l : LockFreeLatch T) (R N : Nat) (h : Legal R N)
    (hl : l.positions = Positions.val R N) :
    stateR (l.releaseWrite []).positions ≠ stateN (l.releaseWrite []).positions ∧
    ∀ c ∈ releaseWriteCandidates, stateR c.2.1 ≠ stateN c.2.1 := by
  constructor
  · obtain ⟨⟨h1, h2⟩, ⟨h3, h4⟩⟩ := h
    interval_cases R <;> interval_cases N <;>
      simp [releaseWrite, releaseWriteCas, firstCas, compare_exchange_weak,
        releaseWriteCandidates, hl, Positions.val, stateN, stateR]
  · decide

/-- Whichever exchanges fail spuriously, a whole `releaseWrite` either leaves
the latch as it was or leaves a transitional state word: it never sets a
stable state. -/
theorem releaseWrite_unchanged_or_transitional (fails : List Bool) (l : LockFreeLatch T) :
    l.releaseWrite fails = l ∨
    stateR (l.releaseWrite fails).positions ≠ stateN (l.releaseWrite fails).positions := by
  rcases releaseWrite_cases fails l with hsame | ⟨x, hx, _, hnew⟩
  · exact Or.inl hsame
  · right
    rw [hnew]
    exact (releaseWriteCandidates_desired x hx).2.2

/-- C16 (fails on the code): a `releaseWrite` on the freshly constructed latch,
state (1,1), in which the exchange (1,1) -> (2,1) fails spuriously: all nine
exchanges fail, the call returns with the latch as it was, and the state word
after `releaseWrite` is the stable (1,1), not a transitional state. -/
theorem releaseWrite_leaves_stable :
    (construct (0 : Int) 0 0).releaseWrite seventhFails = construct 0 0 0 ∧
    stateR ((construct (0 : Int) 0 0).releaseWrite seventhFails).positions = 1 ∧
    stateN ((construct (0 : Int) 0 0).releaseWrite seventhFails).positions = 1 := by
  refine ⟨?_, ?_, ?_⟩ <;> decide

/-! ## Retry counter and repeated reads -/

/-- C18: in every legal state, a second whole `read` directly after a first one
returns the same handle and leaves the latch (state word included) exactly as
the first read left it. Whichever exchanges fail spuriously, a second read
after a first that returned returns the same handle and leaves the state word
as the first left it. -/
theorem read_twice (l : LockFreeLatch T) (R N : Nat) (h : Legal R N)
    (hl : l.positions = Positions.val R N) (fuel fuel2 : Nat) :
    (∃ s l', l.read [] (fuel + 1) = some (s, l') ∧ l'.read [] fuel2 = some (s, l')) ∧
    (∀ fails fuel3 s l1, l.read fails fuel3 = some (s, l1) →
      ∀ fails2 fuel4, ∃ l2, l1.read fails2 fuel4 = some (s, l2) ∧
        l2.positions = l1.positions) := by
  constructor
  · obtain ⟨⟨h1, h2⟩, ⟨h3, h4⟩⟩ := h
    obtain ⟨p, c, b1, b2, b3⟩ := l
    simp only at hl
    subst hl
    interval_cases R <;> interval_cases N <;> exact ⟨_, _, rfl, rfl⟩
  · intro fails fuel3 s l1 hr fails2 fuel4
    obtain ⟨hidx, hpos, _⟩ := read_result l l1 R N h hl fails fuel3 s hr
    obtain ⟨⟨h1, h2⟩, _⟩ := h
    rw [read_eq, hpos]
    interval_cases R <;> cases s <;> simp [Slot.index] at hidx <;> exact ⟨_, rfl, rfl⟩

/-- Witness of C18 at the transitional state (2,1). -/
theorem read_twice_witness :
    (∃ s l', writtenOnce.read [] (0 + 1) = some (s, l') ∧ l'.read [] 0 = some (s, l')) ∧
    (∀ fails fuel3 s l1, writtenOnce.read fails fuel3 = some (s, l1) →
      ∀ fails2 fuel4, ∃ l2, l1.read fails2 fuel4 = some (s, l2) ∧
        l2.positions = l1.positions) :=
  read_twice writtenOnce 2 1 (by decide) rfl 0 0

/-! ## State word codec -/

/-- C20: on legal pairs `Positions<R,N>::val` is 16 * R + N, R is recovered as
val / 16 and N as val % 16, the value lies in 17..51 (so it fits a signed
8-bit char), and two legal pairs with the same value are the same pair. -/
theorem positions_codec (R N : Nat) (h : Legal R N) :
    Positions.val R N = 16 * R + N ∧
    stateR (Positions.val R N) = R ∧ stateN (Positions.val R N) = N ∧
    17 ≤ Positions.val R N ∧ Positions.val R N ≤ 51 ∧ Positions.val R N ≤ 127 ∧
    ∀ R2 N2, Legal R2 N2 → (Positions.val R N = Positions.val R2 N2 ↔ R = R2 ∧ N = N2) := by
  obtain ⟨⟨h1, h2⟩, ⟨h3, h4⟩⟩ := h
  have key : ∀ R2 N2, Legal R2 N2 →
      (Positions.val R N = Positions.val R2 N2 ↔ R = R2 ∧ N = N2) := by
    rintro R2 N2 ⟨⟨k1, k2⟩, ⟨k3, k4⟩⟩
    interval_cases R <;> interval_cases N <;> interval_cases R2 <;> interval_cases N2 <;>
      simp [Positions.val]
  refine ⟨?_, ?_, ?_, ?_, ?_, ?_, key⟩ <;>
    interval_cases R <;> interval_cases N <;> simp [Positions.val, stateR, stateN]

/-- Witness of C20 at the pair (3,2). -/
theorem positions_codec_witness :
    Positions.val 3 2 = 16 * 3 + 2 ∧
    stateR (Positions.val 3 2) = 3 ∧ stateN (Positions.val 3 2) = 2 ∧
    17 ≤ Positions.val 3 2 ∧ Positions.val 3 2 ≤ 51 ∧ Positions.val 3 2 ≤ 127 ∧
    ∀ R2 N2, Legal R2 N2 → (Positions.val 3 2 = Positions.val R2 N2 ↔ 3 = R2 ∧ 2 = N2) :=
  positions_codec 3 2 (by decide)

/-! ## Shared state graph -/

/-- C19 (fails on the code): the shared state graph has a cycle: the two
exchanges (2,1) -> (3,1) and (3,1) -> (2,1) of `releaseWrite` lead from state
(2,1) back to itself. -/
theorem state_graph_has_cycle :
    Relation.TransGen Edge (Positions.val 2 1) (Positions.val 2 1) :=
  Relation.TransGen.tail
    (Relation.TransGen.single (Or.inl (by decide) : Edge (Positions.val 2 1) (Positions.val 3 1)))
    (Or.inl (by decide) : Edge (Positions.val 3 1) (Positions.val 2 1))

/-- Every exchange of `read` goes from a transitional to a stable state. -/
theorem readCandidates_to_stable :
    ∀ c ∈ readCandidates, stateR c.1 ≠ stateN c.1 ∧ stateR c.2.1 = stateN c.2.1 := by
  decide

/-- A path of read edges starts at a transitional and ends at a stable state. -/
theorem readPath_to_stable (a b : Nat) (h : Relation.TransGen ReadEdge a b) :
    stateR a ≠ stateN a ∧ stateR b = stateN b := by
  induction h with
  | single hab =>
    obtain ⟨c, hc, rfl, rfl⟩ := hab
    exact readCandidates_to_stable c hc
  | tail _ hbc ih =>
    obtain ⟨c, hc, rfl, rfl⟩ := hbc
    exact absurd ih.2 (readCandidates_to_stable c hc).1

/-- C19 amended: the state changes made by successful exchanges of `read` alone
form no cycle: each goes from a transitional state to a stable state, so no
state is reached again from itself through read edges only (every cycle of
the shared state graph passes through an exchange of `releaseWrite`). -/
theorem read_edges_acyclic :
    (∀ a b, ReadEdge a b → stateR a ≠ stateN a ∧ stateR b = stateN b) ∧
    ∀ a, ¬ Relation.TransGen ReadEdge a a := by
  refine ⟨fun a b hab => readPath_to_stable a b (Relation.TransGen.single hab), ?_⟩
  intro a h
  have := readPath_to_stable a a h
  exact this.1 this.2

/-! ## Interleavings of atomic steps -/

/-- The whole-call `acquireWrite` is the run of its nine tests on one value of
the state word. -/
theorem acquireWrite_eq_firstTest (l : LockFreeLatch T) :
    l.acquireWrite = firstTest acquireWriteTests l.positions := rfl

/-- The state `fillingHeldSlot` is reached from construct(0) by: a write cycle
of 1; a read (returns `buffer_2`); a write cycle of 2; a write cycle of 3 in
whose `releaseWrite` the first exchange fails spuriously in state (1,2) and the
second, (1,2) -> (2,3), succeeds; a write cycle of 4; and an `acquireWrite`,
which in state (1,3) returns `buffer_2`. -/
theorem fillingHeldSlot_interleaved : Interleaved true fillingHeldSlot := by
  have h0 : Interleaved true (⟨construct (0 : Int) 0 0, .idle, .outside, none⟩ : Threads Int) :=
    Interleaved.construct 0 0 0
  have h1 := Interleaved.step h0 (AtomicStep.callAcquireWrite _ _ _)
  have h2 := Interleaved.step h1 (AtomicStep.acquireMiss _ _ _ _ _ _ (by decide))
  have h3 := Interleaved.step h2 (AtomicStep.acquireMiss _ _ _ _ _ _ (by decide))
  have h4 := Interleaved.step h3 (AtomicStep.acquireMiss _ _ _ _ _ _ (by decide))
  have h5 := Interleaved.step h4 (AtomicStep.acquireMiss _ _ _ _ _ _ (by decide))
  have h6 := Interleaved.step h5 (AtomicStep.acquireMiss _ _ _ _ _ _ (by decide))
  have h7 := Interleaved.step h6 (AtomicStep.acquireMiss _ _ _ _ _ _ (by decide))
  have h8 := Interleaved.step h7 (AtomicStep.acquireHit _ _ _ _ _ _ rfl)
  have h9 := Interleaved.step h8 (AtomicStep.fill _ _ _ Slot.buffer_2 1)
  have h10 := Interleaved.step h9 (AtomicStep.callReleaseWrite _ _ _ _)
  have h11 := Interleaved.step h10 (AtomicStep.releaseMiss _ _ _ _ _ (Or.inr (by decide)))
  have h12 := Interleaved.step h11 (AtomicStep.releaseMiss _ _ _ _ _ (Or.inr (by decide)))
  have h13 := Interleaved.step h12 (AtomicStep.releaseMiss _ _ _ _ _ (Or.inr (by decide)))
  have h14 := Interleaved.step h13 (AtomicStep.releaseMiss _ _ _ _ _ (Or.inr (by decide)))
  have h15 := Interleaved.step h14 (AtomicStep.releaseMiss _ _ _ _ _ (Or.inr (by decide)))
  have h16 := Interleaved.step h15 (AtomicStep.releaseMiss _ _ _ _ _ (Or.inr (by decide)))
  have h17 := Interleaved.step h16 (AtomicStep.releaseHit _ _ _ _ _ _ _ rfl)
  have h18 := Interleaved.step h17 (AtomicStep.callRead _ _ _)
  have h19 := Interleaved.step h18 (AtomicStep.fastMiss _ _ _ _ _ _ (by decide))
  have h20 := Interleaved.step h19 (AtomicStep.fastMiss _ _ _ _ _ _ (by decide))
  have h21 := Interleaved.step h20 (AtomicStep.fastMiss _ _ _ _ _ _ (by decide))
  have h22 := Interleaved.step h21 (AtomicStep.enterLoop _ _ _)
  have h23 := Interleaved.step h22 (AtomicStep.loopHit _ _ _ _ _ _ _ rfl)
  have h24 := Interleaved.step h23 (AtomicStep.callAcquireWrite _ _ _)
  have h25 := Interleaved.step h24 (AtomicStep.acquireMiss _ _ _ _ _ _ (by decide))
  have h26 := Interleaved.step h25 (AtomicStep.acquireMiss _ _ _ _ _ _ (by decide))
  have h27 := Interleaved.step h26 (AtomicStep.acquireMiss _ _ _ _ _ _ (by decide))
  have h28 := Interleaved.step h27 (AtomicStep.acquireMiss _ _ _ _ _ _ (by decide))
  have h29 := Interleaved.step h28 (AtomicStep.acquireMiss _ _ _ _ _ _ (by decide))
  have h30 := Interleaved.step h29 (AtomicStep.acquireMiss _ _ _ _ _ _ (by decide))
  have h31 := Interleaved.step h30 (AtomicStep.acquireMiss _ _ _ _ _ _ (by decide))
  have h32 := Interleaved.step h31 (AtomicStep.acquireHit _ _ _ _ _ _ rfl)
  have h33 := Interleaved.step h32 (AtomicStep.fill _ _ _ Slot.buffer_3 2)
  have h34 := Interleaved.step h33 (AtomicStep.callReleaseWrite _ _ _ _)
  have h35 := Interleaved.step h34 (AtomicStep.releaseMiss _ _ _ _ _ (Or.inr (by decide)))
  have h36 := Interleaved.step h35 (AtomicStep.releaseMiss _ _ _ _ _ (Or.inr (by decide)))
  have h37 := Interleaved.step h36 (AtomicStep.releaseMiss _ _ _ _ _ (Or.inr (by decide)))
  have h38 := Interleaved.step h37 (AtomicStep.releaseMiss _ _ _ _ _ (Or.inr (by decide)))
  have h39 := Interleaved.step h38 (AtomicStep.releaseMiss _ _ _ _ _ (Or.inr (by decide)))
  have h40 := Interleaved.step h39 (AtomicStep.releaseHit _ _ _ _ _ _ _ rfl)
  have h41 := Interleaved.step h40 (AtomicStep.callAcquireWrite _ _ _)
  have h42 := Interleaved.step h41 (AtomicStep.acquireHit _ _ _ _ _ _ rfl)
  have h43 := Interleaved.step h42 (AtomicStep.fill _ _ _ Slot.buffer_3 3)
  have h44 := Interleaved.step h43 (AtomicStep.callReleaseWrite _ _ _ _)
  have h45 := Interleaved.step h44 (AtomicStep.releaseMiss _ _ _ _ _ (Or.inl rfl))
  have h46 := Interleaved.step h45 (AtomicStep.releaseHit _ _ _ _ _ _ _ rfl)
  have h47 := Interleaved.step h46 (AtomicStep.callAcquireWrite _ _ _)
  have h48 := Interleaved.step h47 (AtomicStep.acquireMiss _ _ _ _ _ _ (by decide))
  have h49 := Interleaved.step h48 (AtomicStep.acquireMiss _ _ _ _ _ _ (by decide))
  have h50 := Interleaved.step h49 (AtomicStep.acquireHit _ _ _ _ _ _ rfl)
  have h51 := Interleaved.step h50 (AtomicStep.fill _ _ _ Slot.buffer_1 4)
  have h52 := Interleaved.step h51 (AtomicStep.callReleaseWrite _ _ _ _)
  have h53 := Interleaved.step h52 (AtomicStep.releaseMiss _ _ _ _ _ (Or.inr (by decide)))
  have h54 := Interleaved.step h53 (AtomicStep.releaseMiss _ _ _ _ _ (Or.inr (by decide)))
  have h55 := Interleaved.step h54 (AtomicStep.releaseMiss _ _ _ _ _ (Or.inr (by decide)))
  have h56 := Interleaved.step h55 (AtomicStep.releaseHit _ _ _ _ _ _ _ rfl)
  have h57 := Interleaved.step h56 (AtomicStep.callAcquireWrite _ _ _)
  have h58 := Interleaved.step h57 (AtomicStep.acquireMiss _ _ _ _ _ _ (by decide))
  have h59 := Interleaved.step h58 (AtomicStep.acquireHit _ _ _ _ _ _ rfl)
  exact h59

/-- Each test of `acquireWrite` returns a handle that differs from both fields
of the state word it tests for. -/
theorem acquireWriteTests_disjoint :
    ∀ x ∈ acquireWriteTests, x.2.index ≠ stateR x.1 ∧ x.2.index ≠ stateN x.1 := by
  decide

/-- Each exchange of `releaseWrite` whose expected value is not (1,2) keeps the
field N, and so does the first exchange. -/
theorem releaseWriteCandidates_keep_N :
    (∀ x ∈ releaseWriteCandidates, x.1 ≠ Positions.val 1 2 → stateN x.2.1 = stateN x.1) ∧
    (∀ x rest, x :: rest = releaseWriteCandidates →
      x.1 = Positions.val 1 2 ∧ stateN x.2.1 = stateN x.1) := by
  refine ⟨by decide, ?_⟩
  intro x rest h
  simp only [releaseWriteCandidates, List.cons.injEq] at h
  obtain ⟨rfl, _⟩ := h
  decide

/-- Each stable-state test of `read` returns the handle of the claimed slot. -/
theorem readFastTests_claimed :
    ∀ x ∈ readFastTests, x.2.index = stateN x.1 := by
  decide

/-- Each exchange of `read` keeps R, sets N to R, returns the handle of R and
does not lead to state (1,2). -/
theorem readCandidates_claim_R :
    ∀ x ∈ readCandidates,
      stateR x.2.1 = stateR x.1 ∧ stateN x.2.1 = stateR x.1 ∧ x.2.2.index = stateR x.1 ∧
      x.2.1 ≠ Positions.val 1 2 := by
  decide

/-- A payload store leaves the state word alone. -/
theorem fill_positions (l : LockFreeLatch T) (w : Slot) (v : T) :
    (l.fill w v).positions = l.positions := by
  cases w <;> rfl

/-- A payload store through one handle leaves the buffers behind the other
handles alone. -/
theorem fill_get_of_ne (l : LockFreeLatch T) (w r : Slot) (v : T) (h : w ≠ r) :
    (l.fill w v).get r = l.get r := by
  cases w <;> cases r <;> first | rfl | exact absurd rfl h

/-- Steps without spurious failure keep the invariant. -/
theorem atomicInv_step (σ σ' : Threads T) (hstep : AtomicStep false σ σ')
    (hinv : AtomicInv σ) : AtomicInv σ' := by
  obtain ⟨hheld, hprod, hcons⟩ := hinv
  cases hstep with
  | callAcquireWrite l c h => exact ⟨hheld, fun x hx => hx, hcons⟩
  | acquireHit l c h e s rest he =>
    refine ⟨hheld, ?_, hcons⟩
    have := acquireWriteTests_disjoint (e, s) (hprod (e, s) (List.mem_cons_self _ _))
    subst he
    exact this
  | acquireMiss l c h e s rest he =>
    exact ⟨hheld, fun x hx => hprod x (List.mem_cons_of_mem _ hx), hcons⟩
  | acquireNull l c h => exact ⟨hheld, trivial, hcons⟩
  | fill l c h w v =>
    refine ⟨?_, ?_, hcons⟩
    · intro r hr
      show r.index = stateN (l.fill w v).positions
      rw [fill_positions]
      exact hheld r hr
    · show _ ≠ stateR (l.fill w v).positions ∧ _ ≠ stateN (l.fill w v).positions
      rw [fill_positions]
      exact hprod
  | callReleaseWrite l c h w => exact ⟨hheld, ⟨Or.inl rfl, fun x hx => hx⟩, hcons⟩
  | releaseHit l c h e d u rest he =>
    refine ⟨?_, trivial, hcons⟩
    intro r hr
    have hr2 : r.index = stateN l.positions := hheld r hr
    have hmem : (e, d, u) ∈ releaseWriteCandidates := hprod.2 _ (List.mem_cons_self _ _)
    have hkeep : stateN d = stateN e := by
      rcases hprod.1 with hfull | hne
      · exact (releaseWriteCandidates_keep_N.2 _ _ hfull).2
      · exact releaseWriteCandidates_keep_N.1 _ hmem (by rw [← he]; exact hne)
    show r.index = stateN d
    rw [hkeep, ← he]
    exact hr2
  | releaseMiss l c h x rest hx =>
    have hne : l.positions ≠ x.1 := by
      rcases hx with hx | hx
      · exact absurd hx (by decide)
      · exact hx
    refine ⟨hheld, ⟨?_, fun y hy => hprod.2 y (List.mem_cons_of_mem _ hy)⟩, hcons⟩
    rcases hprod.1 with hfull | hne2
    · right
      rw [← (releaseWriteCandidates_keep_N.2 _ _ hfull).1]
      exact hne
    · exact Or.inr hne2
  | releaseReturn l c h => exact ⟨hheld, trivial, hcons⟩
  | callRead l p h => exact ⟨hheld, hprod, fun x hx => hx⟩
  | fastHit l p h e s rest he =>
    refine ⟨?_, hprod, trivial⟩
    intro r hr
    cases hr
    have := readFastTests_claimed (e, s) (hcons _ (List.mem_cons_self _ _))
    subst he
    exact this
  | fastMiss l p h e s rest he =>
    exact ⟨hheld, hprod, fun x hx => hcons x (List.mem_cons_of_mem _ hx)⟩
  | enterLoop l p h => exact ⟨hheld, hprod, fun x hx => hx⟩
  | loopHit l p h e d s rest he =>
    obtain ⟨hR, hN, hs, h12⟩ := readCandidates_claim_R (e, d, s) (hcons _ (List.mem_cons_self _ _))
    subst he
    refine ⟨?_, ?_, trivial⟩
    · intro r hr
      cases hr
      show s.index = stateN d
      rw [hN]
      exact hs
    · cases p with
      | idle => trivial
      | acquiring rest2 => exact hprod
      | filling w =>
        show w.index ≠ stateR d ∧ w.index ≠ stateN d
        rw [hR, hN]
        exact ⟨hprod.1, hprod.1⟩
      | releasing rest2 => exact ⟨Or.inr h12, hprod.2⟩
      | stopped => trivial
  | loopMiss l p h x rest hx =>
    exact ⟨hheld, hprod, fun y hy => hcons y (List.mem_cons_of_mem _ hy)⟩
  | loopRetry l p h => exact ⟨hheld, hprod, fun x hx => hx⟩

/-- The invariant holds in every state reachable without spurious failure. -/
theorem interleaved_inv (σ : Threads T) (hσ : Interleaved false σ) : AtomicInv σ := by
  induction hσ with
  | construct src junk_2 junk_3 => exact ⟨fun r hr => (by cases hr), trivial, trivial⟩
  | step _ hstep ih => exact atomicInv_step _ _ hstep ih

/-- When no exchange fails spuriously, in every reachable state a handle being
filled differs from the handle the consumer holds, and no step changes the
buffer behind the held handle. -/
theorem exclusion_without_spurious_failure (σ : Threads T) (hσ : Interleaved false σ) :
    (∀ w r, σ.producer = ProducerPc.filling w → σ.held = some r → w ≠ r) ∧
    (∀ σ' r, AtomicStep false σ σ' → σ.held = some r → σ'.latch.get r = σ.latch.get r) := by
  obtain ⟨hheld, hprod, _⟩ := interleaved_inv σ hσ
  have excl : ∀ w r, σ.producer = ProducerPc.filling w → σ.held = some r → w ≠ r := by
    intro w r hw hr heq
    subst heq
    rw [hw] at hprod
    exact hprod.2 (hheld w hr)
  refine ⟨excl, ?_⟩
  intro σ' r hstep hr
  cases hstep with
  | fill l c h w v => exact fill_get_of_ne l w r v (excl w r rfl hr)
  | callAcquireWrite => rfl
  | acquireHit => rfl
  | acquireMiss => rfl
  | acquireNull => rfl
  | callReleaseWrite => rfl
  | releaseHit => cases r <;> rfl
  | releaseMiss => rfl
  | releaseReturn => rfl
  | callRead => cases r <;> rfl
  | fastHit => rfl
  | fastMiss => rfl
  | enterLoop => rfl
  | loopHit => cases r <;> rfl
  | loopMiss => rfl
  | loopRetry => cases r <;> rfl

/-- C13 (fails on the code): with `compare_exchange_weak` allowed its spurious
failure, the state `fillingHeldSlot` is reachable from construct(0): the
consumer holds the handle of `buffer_2` from its most recent read, the
producer has been handed `buffer_2` by `acquireWrite`, and its next step
stores 5 into `buffer_2`, changing the payload behind the held handle. -/
theorem producer_fills_held_slot :
    Interleaved true fillingHeldSlot ∧
    fillingHeldSlot.producer = ProducerPc.filling Slot.buffer_2 ∧
    fillingHeldSlot.held = some Slot.buffer_2 ∧
    AtomicStep true fillingHeldSlot
      { fillingHeldSlot with latch := fillingHeldSlot.latch.fill Slot.buffer_2 5 } ∧
    (fillingHeldSlot.latch.fill Slot.buffer_2 5).get Slot.buffer_2
      ≠ fillingHeldSlot.latch.get Slot.buffer_2 :=
  ⟨fillingHeldSlot_interleaved, rfl, rfl, AtomicStep.fill _ _ _ Slot.buffer_2 5, by decide⟩

end LockFreeLatch
